import Mathlib

/-!
# Verification of the stDBMS persistence layer

Shallow embedding of the repository's Rust sources (`src/common.rs`,
`src/pageman.rs`, `src/dirman.rs`, `src/error.rs`) and proofs of the
specification's claims about them.

Modelling conventions:
* Bytes are `Nat` (each meaningful value is `< 256`); byte buffers, fixed
  arrays and file contents are `List Nat`.
* Rust strings (`&str` / `String`) are modelled by their UTF-8 byte
  sequences (`List Nat`).  `String::from_utf8_lossy` is the identity on
  valid UTF-8 input, and the char `'\0'` is the single byte `0`, so
  `fixed_to_string`'s lossy-decode-then-trim becomes a byte-level
  trailing-zero trim.
* `u8` casts (`as u8`) are `% 256`.
* File I/O is explicit state passing: a writer accumulates a `List Nat`;
  a reader consumes a prefix of a `List Nat` stream.  `read_exact` fails
  (as Rust's `read_exact` fails with `UnexpectedEof`) when fewer bytes
  remain than requested.
-/

/-- The error type of `src/error.rs`.  `Io` stands for the wrapped
`std::io::Error`; in the byte-stream model the only I/O failure is a short
read (Rust's `UnexpectedEof`), so no payload is carried.  `InvalidInput`
carries the offending name (as bytes, standing for the Rust `String`) and
the size bound, exactly as in the source. -/
inductive DbError where
  | InvalidMagic (expected : Nat) (found : Nat)
  | InvalidPageCount (count : Nat)
  | Io
  | StringConversion (msg : List Nat)
  | InvalidInput (expected : List Nat) (found : Nat)
deriving DecidableEq

deriving instance DecidableEq for Except

/-- `MIN_PAGE_NAME_SIZE` of `src/common.rs`. -/
def MIN_PAGE_NAME_SIZE : Nat := 8

/-- `MIN_DIR_NAME_SIZE` of `src/common.rs`. -/
def MIN_DIR_NAME_SIZE : Nat := 8

/-- `MIN_COL_NAME_SIZE` of `src/common.rs`. -/
def MIN_COL_NAME_SIZE : Nat := 8

/-- `string_to_fixed::<N>(s)` of `src/common.rs`: a zero-initialised array
of `N` bytes whose first `min (s.length) N` bytes are copied from `s`. -/
def string_to_fixed (N : Nat) (s : List Nat) : List Nat :=
  let len := min s.length N
  s.take len ++ List.replicate (N - len) 0

/-- `fixed_to_string(bytes)` of `src/common.rs`:
`String::from_utf8_lossy(bytes).trim_end_matches('\0')`.  On valid UTF-8
input the lossy conversion is the identity and trimming the char `'\0'`
removes exactly the trailing `0` bytes, so at byte level this is a
trailing-zero trim. -/
def fixed_to_string (bytes : List Nat) : List Nat :=
  ((bytes.reverse.dropWhile (fun b => b == 0)).reverse)

/-- Rust's `File::write_all(buf)` in the explicit-state model: append the
buffer to the bytes written so far. -/
def write_all (buf : List Nat) (file : List Nat) : List Nat :=
  file ++ buf

/-- Rust's `File::read_exact` for a buffer of `n` bytes in the
explicit-state model: return the `n` bytes read and the remaining stream,
or an I/O error (`UnexpectedEof`) when fewer than `n` bytes remain. -/
def read_exact (n : Nat) (stream : List Nat) :
    Except DbError (List Nat × List Nat) :=
  if stream.length < n then .error .Io
  else .ok (stream.take n, stream.drop n)

/-- `PAGE_MAGIC` of `src/pageman.rs` (0xCA). -/
def PAGE_MAGIC : Nat := 0xCA

/-- `PAGE_CONTENT_SIZE` of `src/pageman.rs`. -/
def PAGE_CONTENT_SIZE : Nat := 256

/-- `PAGE_END` of `src/pageman.rs` (0xED), the content terminator. -/
def PAGE_END : Nat := 0xED

/-- `PAGE_NAME_SIZE` of `src/pageman.rs`. -/
def PAGE_NAME_SIZE : Nat := MIN_PAGE_NAME_SIZE

/-- `PageHeader` of `src/pageman.rs`: a magic byte and the 8-byte name. -/
structure PageHeader where
  magic : Nat
  name : List Nat
deriving DecidableEq

/-- `Page` of `src/pageman.rs`: header plus the 256-byte content buffer. -/
structure Page where
  header : PageHeader
  content : List Nat
deriving DecidableEq

/-- `Page::new(name, buffer)` of `src/pageman.rs`: reject a name longer
than `PAGE_NAME_SIZE`; otherwise copy
`copy_len = min (buffer.len()) (PAGE_CONTENT_SIZE - 1)` bytes of the
payload into a zero-initialised 256-byte buffer and write `PAGE_END` at
offset `copy_len`. -/
def Page.new (name : List Nat) (buffer : List Nat) : Except DbError Page :=
  if name.length > PAGE_NAME_SIZE then
    .error (.InvalidInput name PAGE_NAME_SIZE)
  else
    let copy_len := min buffer.length (PAGE_CONTENT_SIZE - 1)
    let zeroed := buffer.take copy_len
      ++ List.replicate (PAGE_CONTENT_SIZE - copy_len) 0
    let content := zeroed.set copy_len PAGE_END
    .ok { header := { magic := PAGE_MAGIC,
                      name := string_to_fixed PAGE_NAME_SIZE name },
          content := content }

/-- `Page::save` of `src/pageman.rs`: write the magic byte, the name bytes
and the content bytes, in that order, to a fresh file. -/
def Page.save (p : Page) : List Nat :=
  let file : List Nat := []
  let file := write_all [p.header.magic] file
  let file := write_all p.header.name file
  write_all p.content file

/-- `Page::load` of `src/pageman.rs`: read the magic byte, then the
8 name bytes, then check the magic (in this order — the check happens
after the name read), then read the 256 content bytes. -/
def Page.load (stream : List Nat) : Except DbError Page := do
  let (magic_buf, s1) ← read_exact 1 stream
  let magic := magic_buf.headD 0
  let (name, s2) ← read_exact PAGE_NAME_SIZE s1
  if magic != PAGE_MAGIC then
    .error (.InvalidMagic PAGE_MAGIC magic)
  else
    let (content, _s3) ← read_exact PAGE_CONTENT_SIZE s2
    return { header := { magic := magic, name := name }, content := content }

/-- `Page::get_name` of `src/pageman.rs`. -/
def Page.get_name (p : Page) : List Nat :=
  fixed_to_string p.header.name

/-- `Iterator::position` as used by `Page::get_content`: index of the
first element satisfying the predicate. -/
def position (p : Nat → Bool) : List Nat → Option Nat
  | [] => none
  | b :: rest => if p b then some 0 else (position p rest).map (· + 1)

/-- `Page::get_content` of `src/pageman.rs`: the prefix of the content
buffer before the first `PAGE_END` byte, or the whole buffer when no
terminator occurs. -/
def Page.get_content (p : Page) : List Nat :=
  let end_pos := (position (fun b => b == PAGE_END) p.content).getD
    PAGE_CONTENT_SIZE
  p.content.take end_pos

/-- `DIRECTORY_MAGIC` of `src/dirman.rs` (0xCC). -/
def DIRECTORY_MAGIC : Nat := 0xCC

/-- `PAGES_PER_DIRECTORY` of `src/dirman.rs`: the directory capacity. -/
def PAGES_PER_DIRECTORY : Nat := 32

/-- `DIRECTORY_NAME_SIZE` of `src/dirman.rs`. -/
def DIRECTORY_NAME_SIZE : Nat := MIN_DIR_NAME_SIZE

/-- `COLUMN_NAME_SIZE` of `src/dirman.rs`. -/
def COLUMN_NAME_SIZE : Nat := MIN_COL_NAME_SIZE

/-- `COLUMN_INT` of `src/dirman.rs` (0x00). -/
def COLUMN_INT : Nat := 0x00

/-- `COLUMN_FLOAT` of `src/dirman.rs` (0x01). -/
def COLUMN_FLOAT : Nat := 0x01

/-- `COLUMN_STRING` of `src/dirman.rs` (0x02). -/
def COLUMN_STRING : Nat := 0x02

/-- `DirectoryColumn` of `src/dirman.rs`: a type tag byte and the 8-byte
column name. -/
structure DirectoryColumn where
  type_ : Nat
  name : List Nat
deriving DecidableEq

/-- `DirectoryHeader` of `src/dirman.rs`. -/
structure DirectoryHeader where
  magic : Nat
  name : List Nat
  page_count : Nat
  column_count : Nat
deriving DecidableEq

/-- `Directory` of `src/dirman.rs`: header, column descriptors and the
referenced page names. -/
structure Directory where
  header : DirectoryHeader
  columns : List DirectoryColumn
  names : List (List Nat)
deriving DecidableEq

/-- `Directory::new(name, columns)` of `src/dirman.rs`:
`column_count = columns_vec.len() as u8` (the `as u8` cast is `% 256`),
`page_count = 0`, empty name list. -/
def Directory.new (name : List Nat) (columns : Option (List DirectoryColumn)) :
    Directory :=
  let columns_vec := columns.getD []
  { header := { magic := DIRECTORY_MAGIC,
                name := string_to_fixed DIRECTORY_NAME_SIZE name,
                page_count := 0,
                column_count := columns_vec.length % 256 },
    columns := columns_vec,
    names := [] }

/-- `Directory::add_page(&mut self, page)` of `src/dirman.rs`, with the
`&mut self` made explicit: the pair holds the `Result<()>` and the
directory after the call (unchanged on failure).  On failure the error
carries `self.names.len() as u8`; on success the page's name field is
appended and `page_count` set to `self.names.len() as u8`. -/
def Directory.add_page (d : Directory) (page : Page) :
    Except DbError Unit × Directory :=
  if d.names.length ≥ PAGES_PER_DIRECTORY then
    (.error (.InvalidPageCount (d.names.length % 256)), d)
  else
    let names := d.names ++ [page.header.name]
    (.ok (),
     { d with names := names,
              header := { d.header with page_count := names.length % 256 } })

/-- `Directory::save` of `src/dirman.rs`: write the magic byte, the name
bytes, the page_count byte, the column_count byte, then each column (type
tag byte, then name bytes) in list order, then each page name in append
order. -/
def Directory.save (d : Directory) : List Nat :=
  let file : List Nat := []
  let file := write_all [d.header.magic] file
  let file := write_all d.header.name file
  let file := write_all [d.header.page_count] file
  let file := write_all [d.header.column_count] file
  let file := d.columns.foldl
    (fun f column => write_all column.name (write_all [column.type_] f)) file
  d.names.foldl (fun f name => write_all name f) file

/-- The column-reading loop of `Directory::load`: read `n` records of one
type-tag byte followed by `COLUMN_NAME_SIZE` name bytes, in stream
order. -/
def readColumns : Nat → List Nat → Except DbError (List DirectoryColumn × List Nat)
  | 0, s => .ok ([], s)
  | n + 1, s => do
    let (type_buf, s1) ← read_exact 1 s
    let (col_name, s2) ← read_exact COLUMN_NAME_SIZE s1
    let (rest, s3) ← readColumns n s2
    return ({ type_ := type_buf.headD 0, name := col_name } :: rest, s3)

/-- The page-name-reading loop of `Directory::load`: read `n` records of
`PAGE_NAME_SIZE` bytes each, in stream order. -/
def readNames : Nat → List Nat → Except DbError (List (List Nat) × List Nat)
  | 0, s => .ok ([], s)
  | n + 1, s => do
    let (page_name, s1) ← read_exact PAGE_NAME_SIZE s
    let (rest, s2) ← readNames n s1
    return (page_name :: rest, s2)

/-- `Directory::load` of `src/dirman.rs`: read the magic byte, the 8 name
bytes, the page_count byte and the column_count byte, then check the
magic (the check happens after those four reads), then read exactly
`column_count` column records and exactly `page_count` page names. -/
def Directory.load (stream : List Nat) : Except DbError Directory := do
  let (magic_buf, s1) ← read_exact 1 stream
  let magic := magic_buf.headD 0
  let (name, s2) ← read_exact DIRECTORY_NAME_SIZE s1
  let (page_count_buf, s3) ← read_exact 1 s2
  let page_count := page_count_buf.headD 0
  let (column_count_buf, s4) ← read_exact 1 s3
  let column_count := column_count_buf.headD 0
  if magic != DIRECTORY_MAGIC then
    .error (.InvalidMagic DIRECTORY_MAGIC magic)
  else
    let (columns, s5) ← readColumns column_count s4
    let (names, _s6) ← readNames page_count s5
    return { header := { magic := magic, name := name,
                         page_count := page_count,
                         column_count := column_count },
             columns := columns, names := names }

/-- `Directory::get_name` of `src/dirman.rs`. -/
def Directory.get_name (d : Directory) : List Nat :=
  fixed_to_string d.header.name

/-- `Directory::get_page_names` of `src/dirman.rs`: each stored name,
lossily decoded and trimmed of trailing zero bytes (the body inlines
what `fixed_to_string` does). -/
def Directory.get_page_names (d : Directory) : List (List Nat) :=
  d.names.map (fun name => (name.reverse.dropWhile (fun b => b == 0)).reverse)

/-- `DirectoryColumn::new_int` of `src/dirman.rs`. -/
def DirectoryColumn.new_int (name : List Nat) : DirectoryColumn :=
  { type_ := COLUMN_INT, name := string_to_fixed COLUMN_NAME_SIZE name }

/-- `DirectoryColumn::new_float` of `src/dirman.rs`. -/
def DirectoryColumn.new_float (name : List Nat) : DirectoryColumn :=
  { type_ := COLUMN_FLOAT, name := string_to_fixed COLUMN_NAME_SIZE name }

/-- `DirectoryColumn::new_string` of `src/dirman.rs`. -/
def DirectoryColumn.new_string (name : List Nat) : DirectoryColumn :=
  { type_ := COLUMN_STRING, name := string_to_fixed COLUMN_NAME_SIZE name }

/-- `DirectoryColumn::get_name` of `src/dirman.rs`. -/
def DirectoryColumn.get_name (c : DirectoryColumn) : List Nat :=
  fixed_to_string c.name

/-- Iterated `add_page`, threading the `&mut self` state: feeds the pages
one at a time, stopping at the first failure (as a caller using `?` on
each call would). -/
def addPages (d : Directory) : List Page → Except DbError Directory
  | [] => .ok d
  | p :: ps =>
    match Directory.add_page d p with
    | (.ok _, d1) => addPages d1 ps
    | (.error e, _) => .error e

/-- The count invariant of the spec: `page_count == len(names)` and
`column_count == len(columns)`. -/
def CountInv (d : Directory) : Prop :=
  d.header.page_count = d.names.length ∧
  d.header.column_count = d.columns.length

/-- A page value used to instantiate theorems at concrete inputs. -/
def demoPage : Page :=
  { header := { magic := PAGE_MAGIC, name := string_to_fixed 8 [112, 49] },
    content := List.replicate 256 0 }

/-! ## Helper lemmas about the byte-stream reader and writer -/

theorem read_exact_append (l r : List Nat) :
    read_exact l.length (l ++ r) = .ok (l, r) := by
  have hlen : ¬ (l ++ r).length < l.length := by
    simp [List.length_append]
  simp [read_exact, hlen, List.take_left, List.drop_left]

theorem read_exact_all (l : List Nat) : read_exact l.length l = .ok (l, []) := by
  have := read_exact_append l []
  simpa using this

theorem read_exact_short (n : Nat) (s : List Nat) (h : s.length < n) :
    read_exact n s = .error .Io := by
  simp [read_exact, h]

/-! ## Helper lemmas about the fixed-width name codec -/

theorem string_to_fixed_length (N : Nat) (s : List Nat) :
    (string_to_fixed N s).length = N := by
  simp [string_to_fixed]

theorem string_to_fixed_eq_take_append (N : Nat) (s : List Nat) :
    string_to_fixed N s = s.take N ++ List.replicate (N - min s.length N) 0 := by
  unfold string_to_fixed
  rcases Nat.le_total s.length N with h | h
  · simp [Nat.min_eq_left h, List.take_of_length_le h]
  · simp [Nat.min_eq_right h]

theorem string_to_fixed_of_le (N : Nat) (s : List Nat) (h : s.length ≤ N) :
    string_to_fixed N s = s ++ List.replicate (N - s.length) 0 := by
  rw [string_to_fixed_eq_take_append, List.take_of_length_le h,
    Nat.min_eq_left h]

theorem dropWhile_zero_replicate_append (k : Nat) (t : List Nat) :
    List.dropWhile (fun b => b == 0) (List.replicate k 0 ++ t) =
      List.dropWhile (fun b => b == 0) t := by
  induction k with
  | zero => simp
  | succ n ih => simp [List.replicate_succ, List.dropWhile_cons, ih]

theorem fixed_to_string_append_zeros (s : List Nat) (k : Nat) :
    fixed_to_string (s ++ List.replicate k 0) = fixed_to_string s := by
  unfold fixed_to_string
  rw [List.reverse_append, List.reverse_replicate,
    dropWhile_zero_replicate_append]

theorem fixed_to_string_of_getLast (s : List Nat) (h : s.getLast? ≠ some 0) :
    fixed_to_string s = s := by
  unfold fixed_to_string
  cases hs : s.reverse with
  | nil =>
    have : s = [] := by simpa using congrArg List.reverse hs
    simp [this]
  | cons a t =>
    have ha : (a == 0) = false := by
      have : s.getLast? = some a := by
        rw [List.getLast?_eq_head?_reverse, hs]; rfl
      simp only [beq_eq_false_iff_ne, ne_eq]
      intro hz
      exact h (hz ▸ this)
    have hdrop : List.dropWhile (fun b => b == 0) (a :: t) = a :: t := by
      simp [List.dropWhile_cons, ha]
    rw [hdrop, ← hs, List.reverse_reverse]

theorem fixed_to_string_replicate_zero (k : Nat) :
    fixed_to_string (List.replicate k 0) = [] := by
  have := fixed_to_string_append_zeros [] k
  simp only [List.nil_append] at this
  rw [this]
  rfl

theorem fixed_to_string_string_to_fixed (N : Nat) (s : List Nat)
    (hlen : s.length ≤ N) (hlast : s.getLast? ≠ some 0) :
    fixed_to_string (string_to_fixed N s) = s := by
  rw [string_to_fixed_of_le N s hlen, fixed_to_string_append_zeros,
    fixed_to_string_of_getLast s hlast]

/-! ## Helper lemmas about `position` and `get_content` -/

theorem position_eq_none (p : Nat → Bool) (l : List Nat)
    (h : ∀ b ∈ l, ¬ p b) : position p l = none := by
  induction l with
  | nil => rfl
  | cons a t ih =>
    have ha : p a = false := by
      have := h a (by simp)
      simpa using this
    simp [position, ha, ih (fun b hb => h b (by simp [hb]))]

theorem position_append_of_forall (p : Nat → Bool) (l r : List Nat) (b : Nat)
    (hb : p b) (h : ∀ x ∈ l, ¬ p x) :
    position p (l ++ b :: r) = some l.length := by
  induction l with
  | nil => simp [position, hb]
  | cons a t ih =>
    have ha : p a = false := by
      have := h a (by simp)
      simpa using this
    simp [position, ha, ih (fun x hx => h x (by simp [hx]))]

theorem position_append_exists (p : Nat → Bool) (l r : List Nat) (b : Nat)
    (hb : p b) :
    ∃ i, position p (l ++ b :: r) = some i ∧ i ≤ l.length := by
  induction l with
  | nil => exact ⟨0, by simp [position, hb], Nat.zero_le _⟩
  | cons a t ih =>
    by_cases ha : p a
    · exact ⟨0, by simp [position, ha], Nat.zero_le _⟩
    · obtain ⟨i, hi, hle⟩ := ih
      refine ⟨i + 1, ?_, by simpa using Nat.succ_le_succ hle⟩
      simp [position, ha, hi]

theorem get_content_of_append (h : PageHeader) (l r : List Nat)
    (hl : ∀ x ∈ l, x ≠ PAGE_END) :
    Page.get_content ⟨h, l ++ PAGE_END :: r⟩ = l := by
  unfold Page.get_content
  rw [position_append_of_forall (fun b => b == PAGE_END) l r PAGE_END
    (by simp) (fun x hx => by simpa using hl x hx)]
  simp [List.take_left]

theorem set_append_length {α : Type} (l r : List α) (a : α) :
    (l ++ r).set l.length a = l ++ r.set 0 a := by
  induction l with
  | nil => simp
  | cons x xs ih => simp [List.set_cons_succ, ih]

theorem set_append_of_length_eq {α : Type} (l r : List α) (n : Nat) (a : α)
    (h : l.length = n) : (l ++ r).set n a = l ++ r.set 0 a := by
  subst h
  exact set_append_length l r a

theorem page_new_ok (name buffer : List Nat) (h : name.length ≤ 8) :
    Page.new name buffer = .ok
      { header := { magic := PAGE_MAGIC,
                    name := string_to_fixed PAGE_NAME_SIZE name },
        content := buffer.take (min buffer.length 255) ++ PAGE_END ::
          List.replicate (255 - min buffer.length 255) 0 } := by
  unfold Page.new
  rw [if_neg (by simp only [PAGE_NAME_SIZE, MIN_PAGE_NAME_SIZE]; omega)]
  simp only [PAGE_CONTENT_SIZE]
  have hmin : min buffer.length (256 - 1) = min buffer.length 255 := by norm_num
  rw [hmin]
  have hlen : (buffer.take (min buffer.length 255)).length
      = min buffer.length 255 := by
    simp [List.length_take]
  have hrepl : (256 : Nat) - min buffer.length 255
      = (255 - min buffer.length 255) + 1 := by omega
  rw [hrepl, List.replicate_succ]
  rw [set_append_of_length_eq _ _ _ _ hlen]
  rfl

theorem page_save_eq (p : Page) :
    Page.save p = p.header.magic :: (p.header.name ++ p.content) := by
  simp [Page.save, write_all]

theorem page_load_page_save (p : Page)
    (hname : p.header.name.length = PAGE_NAME_SIZE)
    (hcontent : p.content.length = PAGE_CONTENT_SIZE)
    (hmagic : p.header.magic = PAGE_MAGIC) :
    Page.load (Page.save p) = .ok p := by
  obtain ⟨⟨m, nm⟩, ct⟩ := p
  simp only at hname hcontent hmagic
  subst hmagic
  rw [page_save_eq]
  unfold Page.load
  have h1 : read_exact 1 (PAGE_MAGIC :: (nm ++ ct)) =
      .ok ([PAGE_MAGIC], nm ++ ct) := by
    simpa using read_exact_append [PAGE_MAGIC] (nm ++ ct)
  have h2 : read_exact PAGE_NAME_SIZE (nm ++ ct) = .ok (nm, ct) := by
    rw [← hname]; exact read_exact_append nm ct
  have h3 : read_exact PAGE_CONTENT_SIZE ct = .ok (ct, []) := by
    rw [← hcontent]; exact read_exact_all ct
  simp [h1, h2, h3, Bind.bind, Except.bind]
  rfl

theorem position_of_mem (p : Nat → Bool) (c : List Nat) (b : Nat)
    (hb : b ∈ c) (hp : p b) :
    ∃ i, position p c = some i ∧ i < c.length := by
  obtain ⟨s, t, rfl⟩ := List.append_of_mem hb
  obtain ⟨i, hi, hle⟩ := position_append_exists p s t b hp
  exact ⟨i, hi, by simp; omega⟩

/-- Claim C1 (amended): for every name of at most 8 bytes whose UTF-8
encoding does not end in a zero byte and every payload of at most 255
bytes containing no 0xED byte, `load(save(create(name, payload)))` yields
a Page whose `get_name()` equals the original name and whose
`get_content()` equals the original payload exactly. -/
theorem C1_page_roundtrip (name payload : List Nat)
    (hname : name.length ≤ 8) (hlast : name.getLast? ≠ some 0)
    (hlen : payload.length ≤ 255) (hterm : PAGE_END ∉ payload) :
    ∃ p q, Page.new name payload = .ok p ∧ Page.load (Page.save p) = .ok q
      ∧ q.get_name = name ∧ q.get_content = payload := by
  have hmin : min payload.length 255 = payload.length := Nat.min_eq_left hlen
  have hp := page_new_ok name payload hname
  rw [hmin, List.take_length] at hp
  refine ⟨_, _, hp, page_load_page_save _ (string_to_fixed_length _ _) ?_ rfl,
    ?_, ?_⟩
  · simp [PAGE_CONTENT_SIZE]
    omega
  · exact fixed_to_string_string_to_fixed PAGE_NAME_SIZE name hname hlast
  · exact get_content_of_append _ _ _ (fun x hx hxe => hterm (hxe ▸ hx))

/-- Witness for C1 at name "p1" and payload [49, 124, 87]. -/
theorem C1_witness :
    ∃ p q, Page.new [112, 49] [49, 124, 87] = .ok p ∧
      Page.load (Page.save p) = .ok q ∧ q.get_name = [112, 49] ∧
      q.get_content = [49, 124, 87] :=
  C1_page_roundtrip [112, 49] [49, 124, 87] (by decide) (by decide) (by decide)
    (by decide)

set_option maxRecDepth 100000 in
/-- Counterexample to C1 as stated: name "a\0" (2 bytes of text) and
payload [0xED] (1 byte) are accepted, the round trip succeeds, but it
returns name "a" and empty content — neither equals the original. -/
theorem C1_counterexample :
    ((Page.new [97, 0] [PAGE_END]).bind (fun p => Page.load (Page.save p))).map
        (fun q => (q.get_name, q.get_content)) = .ok ([97], [])
      ∧ ([97] : List Nat) ≠ [97, 0] ∧ ([] : List Nat) ≠ [PAGE_END]
      ∧ ([97, 0] : List Nat).length ≤ 8
      ∧ ([PAGE_END] : List Nat).length ≤ 255 := by
  decide

/-- Claim C3 (amended): for every payload of length at least 256 and
valid name, the constructed Page copies exactly the first 255 payload
bytes, places the terminator 0xED at offset 255, and — provided those
255 bytes contain no 0xED byte — `get_content()` returns exactly the
first 255 bytes of the payload. -/
theorem C3_payload_truncation (name payload : List Nat)
    (hname : name.length ≤ 8) (hlen : 256 ≤ payload.length) :
    ∃ p, Page.new name payload = .ok p
      ∧ p.content.take 255 = payload.take 255
      ∧ p.content[255]? = some PAGE_END
      ∧ (PAGE_END ∉ payload.take 255 → p.get_content = payload.take 255) := by
  have hmin : min payload.length 255 = 255 := Nat.min_eq_right (by omega)
  have hp := page_new_ok name payload hname
  rw [hmin] at hp
  simp only [Nat.sub_self, List.replicate_zero] at hp
  have h255 : (payload.take 255).length = 255 := by
    simp [List.length_take]
    omega
  refine ⟨_, hp, ?_, ?_, ?_⟩
  · have := List.take_left (payload.take 255) ([PAGE_END] : List Nat)
    rw [h255] at this
    simpa using this
  · rw [show (255 : Nat) = (payload.take 255).length from h255.symm]
    simp
  · intro hnot
    exact get_content_of_append _ _ _ (fun x hx hxe => hnot (hxe ▸ hx))

set_option maxRecDepth 100000 in
/-- Witness for C3 at name "a" and a payload of 256 bytes 5. -/
theorem C3_witness :
    ∃ p, Page.new [97] (List.replicate 256 5) = .ok p
      ∧ p.content.take 255 = (List.replicate 256 5).take 255
      ∧ p.content[255]? = some PAGE_END
      ∧ (PAGE_END ∉ (List.replicate 256 5).take 255 →
          p.get_content = (List.replicate 256 5).take 255) :=
  C3_payload_truncation [97] (List.replicate 256 5) (by decide) (by decide)

set_option maxRecDepth 100000 in
/-- Counterexample to C3 as stated: a payload of 256 bytes all 0xED gives
`get_content() = []`, not the first 255 payload bytes. -/
theorem C3_counterexample :
    (Page.new [97] (List.replicate 256 PAGE_END)).map Page.get_content
        = .ok []
      ∧ (List.replicate 256 PAGE_END).take 255 ≠ ([] : List Nat)
      ∧ 256 ≤ (List.replicate 256 PAGE_END).length := by
  decide

/-- Claim C9: Page creation fails (with the `InvalidInput` name-too-long
error) if and only if the name length exceeds 8; a name of at most
8 bytes succeeds for every payload of any length. -/
theorem C9_name_length_check (name buffer : List Nat) :
    ((∃ e, Page.new name buffer = .error e) ↔ 8 < name.length)
      ∧ (8 < name.length →
          Page.new name buffer = .error (.InvalidInput name PAGE_NAME_SIZE))
      ∧ (name.length ≤ 8 → ∃ p, Page.new name buffer = .ok p) := by
  by_cases h : 8 < name.length
  · have herr : Page.new name buffer
        = .error (.InvalidInput name PAGE_NAME_SIZE) := by
      rw [Page.new, if_pos]
      show PAGE_NAME_SIZE < name.length
      exact h
    exact ⟨⟨fun _ => h, fun _ => ⟨_, herr⟩⟩, fun _ => herr,
      fun hle => absurd h (by omega)⟩
  · push_neg at h
    have hok := page_new_ok name buffer h
    refine ⟨⟨?_, fun hgt => absurd hgt (by omega)⟩,
      fun hgt => absurd hgt (by omega), fun _ => ⟨_, hok⟩⟩
    rintro ⟨e, he⟩
    rw [hok] at he
    exact absurd he (by simp)

theorem get_content_length_lt (hd : PageHeader) (c : List Nat)
    (hq : PAGE_END ∈ c) :
    (Page.get_content ⟨hd, c⟩).length < c.length := by
  obtain ⟨i, hi, hlt⟩ := position_of_mem (fun b => b == PAGE_END) c
    PAGE_END hq (by simp)
  unfold Page.get_content
  simp only
  rw [hi]
  simp [List.length_take]
  omega

theorem get_content_length_lt_page (q : Page) (hq : PAGE_END ∈ q.content) :
    q.get_content.length < q.content.length := by
  obtain ⟨hd, c⟩ := q
  exact get_content_length_lt hd c hq

/-- Claim C10: every Page produced by `Page::new` contains a terminator
0xED in its content buffer, whose first occurrence is at index at most
`min (payload length) 255`, so `get_content()` returns fewer than 256
bytes; and whenever a content buffer holds a terminator, `get_content()`
is a strict prefix, so the full-buffer fallback needs a terminator-free
buffer, which `new` never builds (only `load` of foreign data can). -/
theorem C10_terminator_invariant (name buffer : List Nat) (p : Page)
    (h : Page.new name buffer = .ok p) :
    PAGE_END ∈ p.content
      ∧ (∃ i, position (fun b => b == PAGE_END) p.content = some i
            ∧ i ≤ min buffer.length 255)
      ∧ p.get_content.length < 256
      ∧ (∀ q : Page, PAGE_END ∈ q.content →
          q.get_content.length < q.content.length) := by
  have hname : name.length ≤ 8 := by
    by_contra hgt
    push_neg at hgt
    rw [Page.new, if_pos (show PAGE_NAME_SIZE < name.length from hgt)] at h
    exact absurd h (by simp)
  rw [page_new_ok name buffer hname] at h
  injection h with h2
  subst h2
  have hmem : PAGE_END ∈ (buffer.take (min buffer.length 255) ++ PAGE_END ::
      List.replicate (255 - min buffer.length 255) 0) := by simp
  have hclen : (buffer.take (min buffer.length 255) ++ PAGE_END ::
      List.replicate (255 - min buffer.length 255) 0).length = 256 := by
    simp [List.length_take]
    omega
  refine ⟨hmem, ?_, ?_, get_content_length_lt_page⟩
  · obtain ⟨i, hi, hle⟩ := position_append_exists (fun b => b == PAGE_END)
      (buffer.take (min buffer.length 255))
      (List.replicate (255 - min buffer.length 255) 0) PAGE_END (by simp)
    have htake : (buffer.take (min buffer.length 255)).length
        = min buffer.length 255 := by simp [List.length_take]
    exact ⟨i, hi, by omega⟩
  · have hlt := get_content_length_lt ⟨PAGE_MAGIC, string_to_fixed PAGE_NAME_SIZE name⟩ _ hmem
    omega

theorem except_bind_eq_ok {ε α β : Type} (x : Except ε α) (f : α → Except ε β)
    (b : β) : x >>= f = .ok b ↔ ∃ a, x = .ok a ∧ f a = .ok b := by
  cases x with
  | error e => simp [Bind.bind, Except.bind]
  | ok a => simp [Bind.bind, Except.bind]

theorem readColumns_length (n : Nat) :
    ∀ (s : List Nat) (cs : List DirectoryColumn) (rest : List Nat),
      readColumns n s = .ok (cs, rest) → cs.length = n := by
  induction n with
  | zero =>
    intro s cs rest h
    simp [readColumns] at h
    simp [h.1]
  | succ n ih =>
    intro s cs rest h
    unfold readColumns at h
    rw [except_bind_eq_ok] at h
    obtain ⟨⟨tb, s1⟩, h1, h⟩ := h
    rw [except_bind_eq_ok] at h
    obtain ⟨⟨cn, s2⟩, h2, h⟩ := h
    rw [except_bind_eq_ok] at h
    obtain ⟨⟨cs2, s3⟩, h3, h⟩ := h
    simp only [pure, Except.pure, Except.ok.injEq, Prod.mk.injEq] at h
    obtain ⟨hcs, hrest⟩ := h
    subst hcs
    simp [ih s2 cs2 s3 h3]

theorem readNames_length (n : Nat) :
    ∀ (s : List Nat) (ns : List (List Nat)) (rest : List Nat),
      readNames n s = .ok (ns, rest) → ns.length = n := by
  induction n with
  | zero =>
    intro s ns rest h
    simp [readNames] at h
    simp [h.1]
  | succ n ih =>
    intro s ns rest h
    unfold readNames at h
    rw [except_bind_eq_ok] at h
    obtain ⟨⟨nm, s1⟩, h1, h⟩ := h
    rw [except_bind_eq_ok] at h
    obtain ⟨⟨ns2, s2⟩, h2, h⟩ := h
    simp only [pure, Except.pure, Except.ok.injEq, Prod.mk.injEq] at h
    obtain ⟨hns, hrest⟩ := h
    subst hns
    simp [ih s1 ns2 s2 h2]

theorem directory_load_count_inv (stream : List Nat) (d : Directory)
    (h : Directory.load stream = .ok d) : CountInv d := by
  unfold Directory.load at h
  rw [except_bind_eq_ok] at h
  obtain ⟨⟨mb, s1⟩, h1, h⟩ := h
  rw [except_bind_eq_ok] at h
  obtain ⟨⟨nm, s2⟩, h2, h⟩ := h
  rw [except_bind_eq_ok] at h
  obtain ⟨⟨pcb, s3⟩, h3, h⟩ := h
  rw [except_bind_eq_ok] at h
  obtain ⟨⟨ccb, s4⟩, h4, h⟩ := h
  dsimp only at h
  split at h
  · exact absurd h (by simp)
  · rw [except_bind_eq_ok] at h
    obtain ⟨⟨cols, s5⟩, h5, h⟩ := h
    rw [except_bind_eq_ok] at h
    obtain ⟨⟨nms, s6⟩, h6, h⟩ := h
    simp only [pure, Except.pure, Except.ok.injEq] at h
    subst h
    exact ⟨(readNames_length _ _ _ _ h6).symm,
      (readColumns_length _ _ _ _ h5).symm⟩

theorem add_page_full (d : Directory) (p : Page) (h : 32 ≤ d.names.length)
    (h255 : d.names.length ≤ 255) :
    Directory.add_page d p
      = (.error (.InvalidPageCount d.names.length), d) := by
  unfold Directory.add_page
  rw [if_pos (show d.names.length ≥ PAGES_PER_DIRECTORY from h)]
  rw [Nat.mod_eq_of_lt (by omega)]

theorem add_page_ok_eq (d : Directory) (p : Page)
    (h : d.names.length < 32) :
    Directory.add_page d p = (.ok (),
      { d with
          header := { d.header with
            page_count := (d.names.length + 1) % 256 },
          names := d.names ++ [p.header.name] }) := by
  unfold Directory.add_page
  rw [if_neg (show ¬ d.names.length ≥ PAGES_PER_DIRECTORY by
    simp only [PAGES_PER_DIRECTORY]; omega)]
  simp

theorem addPages_ok (ps : List Page) :
    ∀ d : Directory, d.header.page_count = d.names.length →
      d.names.length + ps.length ≤ 32 →
      ∃ d2, addPages d ps = .ok d2
        ∧ d2.names.length = d.names.length + ps.length
        ∧ d2.header.page_count = d2.names.length
        ∧ d2.columns = d.columns
        ∧ d2.header.column_count = d.header.column_count := by
  induction ps with
  | nil =>
    intro d h1 h2
    exact ⟨d, rfl, by simp, h1, rfl, rfl⟩
  | cons p t ih =>
    intro d h1 h2
    have hlt : d.names.length < 32 := by
      simp at h2
      omega
    have hmod : (d.names.length + 1) % 256 = d.names.length + 1 :=
      Nat.mod_eq_of_lt (by omega)
    unfold addPages
    rw [add_page_ok_eq d p hlt]
    dsimp only
    obtain ⟨d2, ha, hb, hc, hd2, he⟩ := ih
      { d with
          header := { d.header with
            page_count := (d.names.length + 1) % 256 },
          names := d.names ++ [p.header.name] }
      (by simp [hmod]) (by simp at h2 ⊢; omega)
    refine ⟨d2, ha, ?_, hc, ?_, ?_⟩
    · simp at hb
      simp [hb]
      omega
    · simpa using hd2
    · simpa using he

theorem addPages_cons_eq (d : Directory) (p : Page) (t : List Page) :
    addPages d (p :: t) = match Directory.add_page d p with
      | (.ok _, d1) => addPages d1 t
      | (.error e, _) => .error e := rfl

theorem addPages_append (xs ys : List Page) :
    ∀ d : Directory, addPages d (xs ++ ys)
      = match addPages d xs with
        | .ok d2 => addPages d2 ys
        | .error e => .error e := by
  induction xs with
  | nil =>
    intro d
    simp [addPages]
  | cons x t ih =>
    intro d
    rw [List.cons_append, addPages_cons_eq, addPages_cons_eq]
    obtain ⟨r, d1⟩ := Directory.add_page d x
    cases r with
    | ok u =>
      dsimp only
      exact ih d1
    | error e => rfl

/-- Claim C4: from a fresh Directory each of the first 32 `add_page`
calls succeeds with `page_count` equal to the number of appends;
whenever `len(names) >= 32` (and fits one byte), `add_page` fails with
`InvalidPageCount` carrying the current count, so the 33rd append fails
with count 32. -/
theorem C4_directory_capacity (name : List Nat) (ps : List Page) (p : Page)
    (h32 : ps.length = 32) :
    (∀ k, k ≤ 32 →
        ∃ dk, addPages (Directory.new name none) (ps.take k) = .ok dk
          ∧ dk.header.page_count = k ∧ dk.names.length = k)
      ∧ (∀ d : Directory, 32 ≤ d.names.length → d.names.length ≤ 255 →
          Directory.add_page d p
            = (.error (.InvalidPageCount d.names.length), d))
      ∧ addPages (Directory.new name none) (ps ++ [p])
          = .error (.InvalidPageCount 32) := by
  have hnew_names : (Directory.new name none).names = [] := rfl
  have hinv : (Directory.new name none).header.page_count
      = (Directory.new name none).names.length := rfl
  refine ⟨?_, fun d h1 h2 => add_page_full d p h1 h2, ?_⟩
  · intro k hk
    have htk : (ps.take k).length = k := by
      simp [List.length_take]
      omega
    obtain ⟨dk, ha, hb, hc, _, _⟩ := addPages_ok (ps.take k)
      (Directory.new name none) hinv
      (by rw [htk, hnew_names]; simpa using hk)
    rw [hnew_names, htk] at hb
    simp only [List.length_nil, Nat.zero_add] at hb
    exact ⟨dk, ha, by rw [hc, hb], hb⟩
  · obtain ⟨d32, ha, hb, hc, _, _⟩ := addPages_ok ps
      (Directory.new name none) hinv
      (by rw [hnew_names, h32]; simp)
    rw [hnew_names, h32] at hb
    simp only [List.length_nil, Nat.zero_add] at hb
    rw [addPages_append, ha]
    show addPages d32 [p] = .error (.InvalidPageCount 32)
    rw [addPages_cons_eq, add_page_full d32 p (by omega) (by omega), hb]

/-- Claim C5 (amended): `page_count == len(names)` and
`column_count == len(columns)` hold for every Directory built by `new`
from a column list of at most 255 columns, are preserved by `add_page`
(successful or failing), and hold after every successful `load`. -/
theorem C5_count_invariants :
    (∀ (name : List Nat) (cols : Option (List DirectoryColumn)),
        (cols.getD []).length ≤ 255 → CountInv (Directory.new name cols))
      ∧ (∀ (d : Directory) (p : Page), CountInv d →
          CountInv (Directory.add_page d p).snd)
      ∧ (∀ (stream : List Nat) (d : Directory),
          Directory.load stream = .ok d → CountInv d) := by
  refine ⟨?_, ?_, directory_load_count_inv⟩
  · intro name cols hle
    refine ⟨rfl, ?_⟩
    show (cols.getD []).length % 256 = (cols.getD []).length
    exact Nat.mod_eq_of_lt (by omega)
  · intro d p hinv
    by_cases h : d.names.length ≥ PAGES_PER_DIRECTORY
    · unfold Directory.add_page
      rw [if_pos h]
      exact hinv
    · have hlt : d.names.length < 32 := by
        simp only [PAGES_PER_DIRECTORY] at h
        omega
      obtain ⟨h1, h2⟩ := hinv
      unfold Directory.add_page
      rw [if_neg h]
      refine ⟨?_, h2⟩
      show (d.names ++ [p.header.name]).length % 256
        = (d.names ++ [p.header.name]).length
      simp only [List.length_append, List.length_cons, List.length_nil]
      exact Nat.mod_eq_of_lt (by omega)

/-- A directory created with 256 columns: the `as u8` cast wraps its
`column_count` to 0. -/
def overfullDir : Directory :=
  Directory.new [] (some (List.replicate 256 { type_ := 0, name := [] }))

set_option maxRecDepth 10000 in
/-- Counterexample to C5 as stated: `new` with a 256-column list wraps
`column_count` (an `as u8` cast) to 0 while `len(columns)` is 256. -/
theorem C5_counterexample :
    ¬ CountInv overfullDir
      ∧ overfullDir.header.column_count = 0
      ∧ overfullDir.columns.length = 256 := by
  have hcc : overfullDir.header.column_count = 0 := by
    simp [overfullDir, Directory.new]
  have hcl : overfullDir.columns.length = 256 := by
    simp [overfullDir, Directory.new]
  refine ⟨fun hinv => ?_, hcc, hcl⟩
  obtain ⟨_, h2⟩ := hinv
  rw [hcc, hcl] at h2
  exact absurd h2 (by decide)

theorem foldl_write_all_columns (xs : List DirectoryColumn) :
    ∀ f : List Nat,
      xs.foldl
        (fun f column => write_all column.name (write_all [column.type_] f)) f
      = f ++ (xs.map (fun c => c.type_ :: c.name)).flatten := by
  induction xs with
  | nil =>
    intro f
    simp
  | cons x t ih =>
    intro f
    rw [List.foldl_cons, ih]
    simp [write_all]

theorem foldl_write_all_names (xs : List (List Nat)) :
    ∀ f : List Nat, xs.foldl (fun f name => write_all name f) f
      = f ++ xs.flatten := by
  induction xs with
  | nil =>
    intro f
    simp
  | cons x t ih =>
    intro f
    rw [List.foldl_cons, ih]
    simp [write_all]

/-- Claim C6: `Directory::save` emits exactly the magic byte, the 8 name
bytes, the page_count byte, the column_count byte, each column's type
tag and name bytes in list order, then each page-name entry in append
order. -/
theorem C6_directory_serialized_layout (d : Directory) :
    Directory.save d
      = d.header.magic :: (d.header.name
          ++ d.header.page_count :: d.header.column_count ::
            ((d.columns.map (fun c => c.type_ :: c.name)).flatten
              ++ d.names.flatten)) := by
  unfold Directory.save
  rw [foldl_write_all_names, foldl_write_all_columns]
  simp [write_all]

/-- The three-column schema of the spec's driver scenario: INT "id",
STRING "name", FLOAT "price" (names as UTF-8 bytes). -/
def demoColumns : List DirectoryColumn :=
  [DirectoryColumn.new_int [105, 100],
   DirectoryColumn.new_string [110, 97, 109, 101],
   DirectoryColumn.new_float [112, 114, 105, 99, 101]]

set_option maxRecDepth 100000 in
/-- Claim C7: a Directory created with columns [INT "id", STRING "name",
FLOAT "price"], saved and reloaded, has `column_count == 3`, decoded
column names ["id", "name", "price"] in order, and type tags
[0x00, 0x02, 0x01] matching the originals. -/
theorem C7_schema_fidelity :
    (Directory.load (Directory.save (Directory.new
        [112, 114, 111, 100, 117, 99, 116, 115] (some demoColumns)))).map
      (fun d => (d.header.column_count,
        d.columns.map DirectoryColumn.get_name,
        d.columns.map DirectoryColumn.type_))
      = .ok (3,
          [[105, 100], [110, 97, 109, 101], [112, 114, 105, 99, 101]],
          [COLUMN_INT, COLUMN_STRING, COLUMN_FLOAT]) := by
  decide

theorem page_load_magic (b : Nat) (r : List Nat) (hr : 8 ≤ r.length)
    (hb : b ≠ PAGE_MAGIC) :
    Page.load (b :: r) = .error (.InvalidMagic PAGE_MAGIC b) := by
  unfold Page.load
  have h1 : read_exact 1 (b :: r) = .ok ([b], r) := by
    simpa using read_exact_append [b] r
  have h2 : read_exact PAGE_NAME_SIZE r = .ok (r.take 8, r.drop 8) := by
    unfold read_exact
    rw [if_neg (by
      simp only [PAGE_NAME_SIZE, MIN_PAGE_NAME_SIZE]
      omega)]
    rfl
  simp [h1, h2, Bind.bind, Except.bind, hb]

theorem page_load_short (s : List Nat) (hs : s.length < 9) :
    Page.load s = .error .Io := by
  unfold Page.load
  rcases s with _ | ⟨c, r⟩
  · rw [read_exact_short 1 [] (by simp)]
    rfl
  · have h1 : read_exact 1 (c :: r) = .ok ([c], r) := by
      simpa using read_exact_append [c] r
    have h2 : read_exact PAGE_NAME_SIZE r = .error .Io := by
      refine read_exact_short _ _ ?_
      simp only [List.length_cons] at hs
      simp only [PAGE_NAME_SIZE, MIN_PAGE_NAME_SIZE]
      omega
    simp [h1, h2, Bind.bind, Except.bind]

theorem directory_load_magic (b : Nat) (r : List Nat) (hr : 10 ≤ r.length)
    (hb : b ≠ DIRECTORY_MAGIC) :
    Directory.load (b :: r) = .error (.InvalidMagic DIRECTORY_MAGIC b) := by
  unfold Directory.load
  have h1 : read_exact 1 (b :: r) = .ok ([b], r) := by
    simpa using read_exact_append [b] r
  have h2 : read_exact DIRECTORY_NAME_SIZE r = .ok (r.take 8, r.drop 8) := by
    unfold read_exact
    rw [if_neg (by
      simp only [DIRECTORY_NAME_SIZE, MIN_DIR_NAME_SIZE]
      omega)]
    rfl
  have h3 : read_exact 1 (r.drop 8) = .ok ((r.drop 8).take 1,
      (r.drop 8).drop 1) := by
    unfold read_exact
    rw [if_neg (by simp; omega)]
  have h4 : read_exact 1 (r.drop 9) =
      .ok ((r.drop 9).take 1, (r.drop 9).drop 1) := by
    unfold read_exact
    rw [if_neg (by simp; omega)]
  simp [h1, h2, h3, h4, Bind.bind, Except.bind, hb]

theorem directory_load_short (s : List Nat) (hs : s.length < 11) :
    Directory.load s = .error .Io := by
  unfold Directory.load
  rcases s with _ | ⟨c, r⟩
  · rw [read_exact_short 1 [] (by simp)]
    rfl
  · have h1 : read_exact 1 (c :: r) = .ok ([c], r) := by
      simpa using read_exact_append [c] r
    simp only [List.length_cons] at hs
    by_cases h9 : r.length < 8
    · have h2 : read_exact DIRECTORY_NAME_SIZE r = .error .Io := by
        refine read_exact_short _ _ ?_
        simp only [DIRECTORY_NAME_SIZE, MIN_DIR_NAME_SIZE]
        omega
      simp [h1, h2, Bind.bind, Except.bind]
    · push_neg at h9
      have h2 : read_exact DIRECTORY_NAME_SIZE r = .ok (r.take 8, r.drop 8) := by
        unfold read_exact
        rw [if_neg (by
          simp only [DIRECTORY_NAME_SIZE, MIN_DIR_NAME_SIZE]
          omega)]
        rfl
      by_cases h10 : (r.drop 8).length < 1
      · have h3 : read_exact 1 (r.drop 8) = .error .Io :=
          read_exact_short _ _ h10
        simp [h1, h2, h3, Bind.bind, Except.bind]
      · push_neg at h10
        have h3 : read_exact 1 (r.drop 8) = .ok ((r.drop 8).take 1,
            (r.drop 8).drop 1) := by
          unfold read_exact
          rw [if_neg (by omega)]
        have h4 : read_exact 1 (r.drop 9) = .error .Io := by
          refine read_exact_short _ _ ?_
          simp only [List.length_drop]
          omega
        simp [h1, h2, h3, h4, Bind.bind, Except.bind]

/-- Claim C2 (amended): when the stream holds at least the bytes read
before the magic check (9 for `Page::load`, 11 for `Directory::load`), a
first byte differing from that loader's expected magic fails with
`InvalidMagic` carrying the expected and the actual byte, regardless of
the rest of the stream; a shorter stream fails with an I/O error
instead, because both loaders read the header fields before checking
the magic.  Each loader's clause assumes only its own magic mismatch,
so a Page file opened as a Directory, and vice versa, is covered. -/
theorem C2_magic_validation (b : Nat) (rest : List Nat) :
    (b ≠ PAGE_MAGIC → 8 ≤ rest.length →
        Page.load (b :: rest) = .error (.InvalidMagic PAGE_MAGIC b))
      ∧ (b ≠ DIRECTORY_MAGIC → 10 ≤ rest.length →
        Directory.load (b :: rest) = .error (.InvalidMagic DIRECTORY_MAGIC b))
      ∧ (∀ s : List Nat, s.length < 9 → Page.load s = .error .Io)
      ∧ (∀ s : List Nat, s.length < 11 → Directory.load s = .error .Io) :=
  ⟨fun hbp hr => page_load_magic b rest hr hbp,
   fun hbd hr => directory_load_magic b rest hr hbd,
   page_load_short, directory_load_short⟩

/-- Witness for C2 at the wrong-record-kind inputs: `Page::load` of a
stream starting with the Directory magic 0xCC, and `Directory::load` of
a stream starting with the Page magic 0xCA, each followed by ten bytes
1. -/
theorem C2_witness :
    Page.load (DIRECTORY_MAGIC :: List.replicate 10 1)
        = .error (.InvalidMagic PAGE_MAGIC DIRECTORY_MAGIC)
      ∧ Directory.load (PAGE_MAGIC :: List.replicate 10 1)
        = .error (.InvalidMagic DIRECTORY_MAGIC PAGE_MAGIC) :=
  ⟨(C2_magic_validation DIRECTORY_MAGIC (List.replicate 10 1)).1
      (by decide) (by decide),
   (C2_magic_validation PAGE_MAGIC (List.replicate 10 1)).2.1
      (by decide) (by decide)⟩

set_option maxRecDepth 10000 in
/-- Counterexample to C2 as stated: the one-byte stream [0x00] has a
wrong first byte but `Page::load` fails with the I/O error (short read
of the name field), not with `InvalidMagic`. -/
theorem C2_counterexample :
    Page.load [0] = .error DbError.Io
      ∧ (0 : Nat) ≠ PAGE_MAGIC
      ∧ DbError.Io ≠ DbError.InvalidMagic PAGE_MAGIC 0 := by
  decide

/-- Claim C8: `string_to_fixed` copies at most `width` bytes into a
zero-initialised buffer (longer input silently truncated) and
`fixed_to_string` strips trailing zero bytes, so every text of at most
`width` bytes whose encoding does not end in a zero byte round-trips
exactly, and an all-zero buffer decodes to the empty string. -/
theorem C8_fixed_string_codec (N : Nat) (s t : List Nat)
    (hlen : s.length ≤ N) (hlast : s.getLast? ≠ some 0) :
    fixed_to_string (string_to_fixed N s) = s
      ∧ (string_to_fixed N t).length = N
      ∧ string_to_fixed N t
          = t.take N ++ List.replicate (N - min t.length N) 0
      ∧ fixed_to_string (List.replicate N 0) = [] :=
  ⟨fixed_to_string_string_to_fixed N s hlen hlast,
   string_to_fixed_length N t,
   string_to_fixed_eq_take_append N t,
   fixed_to_string_replicate_zero N⟩

/-- Witness for C8 at width 8, text "hi" and a 20-byte input. -/
theorem C8_witness :
    fixed_to_string (string_to_fixed 8 [104, 105]) = [104, 105]
      ∧ (string_to_fixed 8 (List.replicate 20 7)).length = 8
      ∧ string_to_fixed 8 (List.replicate 20 7)
          = (List.replicate 20 7).take 8
            ++ List.replicate (8 - min (List.replicate 20 (7 : Nat)).length 8) 0
      ∧ fixed_to_string (List.replicate 8 0) = [] :=
  C8_fixed_string_codec 8 [104, 105] (List.replicate 20 7) (by decide)
    (by decide)

/-- The page value `Page::new` builds for name "a" and payload [1, 2, 3]. -/
def demoPage10 : Page :=
  { header := { magic := PAGE_MAGIC,
                name := string_to_fixed PAGE_NAME_SIZE [97] },
    content := [1, 2, 3] ++ PAGE_END :: List.replicate 252 0 }

set_option maxRecDepth 100000 in
/-- Witness for C10 at name "a" and payload [1, 2, 3]. -/
theorem C10_witness :
    PAGE_END ∈ demoPage10.content
      ∧ (∃ i, position (fun b => b == PAGE_END) demoPage10.content = some i
            ∧ i ≤ min ([1, 2, 3] : List Nat).length 255)
      ∧ demoPage10.get_content.length < 256
      ∧ (∀ q : Page, PAGE_END ∈ q.content →
          q.get_content.length < q.content.length) :=
  C10_terminator_invariant [97] [1, 2, 3] demoPage10 (by decide)

set_option maxRecDepth 100000 in
/-- Witness for C4 at name "t" and 33 copies of a demo page. -/
theorem C4_witness :
    (∀ k, k ≤ 32 →
        ∃ dk, addPages (Directory.new [116] none)
            ((List.replicate 32 demoPage).take k) = .ok dk
          ∧ dk.header.page_count = k ∧ dk.names.length = k)
      ∧ (∀ d : Directory, 32 ≤ d.names.length → d.names.length ≤ 255 →
          Directory.add_page d demoPage
            = (.error (.InvalidPageCount d.names.length), d))
      ∧ addPages (Directory.new [116] none)
          (List.replicate 32 demoPage ++ [demoPage])
          = .error (.InvalidPageCount 32) :=
  C4_directory_capacity [116] (List.replicate 32 demoPage) demoPage
    (by simp)
